import Mathlib

/-!
Verification development for the DevOps AI engine
(src/core/devops_ai_engine.py).  The Python code is shallowly embedded:
Python floats are modelled by `PyFloat` (a rational built with `mkRat`,
positive or negative infinity, or NaN, with IEEE comparison semantics),
Python exceptions as `Except`/`Option` values, the stdout diagnostic of
`main` as an explicit output component, and external effects (model
loading, HTTP fetch, FAISS search, the ollama transport) as explicit
environment parameters.  String processing is modelled on `List Char`
over the ASCII fragment of Python str semantics.
-/

namespace DevOpsBot

/-- ASCII model of Python whitespace as used by str.strip and float(). -/
def isSpaceChar (c : Char) : Bool :=
  c == ' ' || c == '\t' || c == '\n' || c == '\r' || c == '\x0b' || c == '\x0c'

/-- ASCII model of the regex class backslash-w: alphanumerics and underscore. -/
def isWordChar (c : Char) : Bool := c.isAlphanum || c == '_'

/-- Model of Python str.strip on the character list. -/
def pyStripL (l : List Char) : List Char :=
  ((l.dropWhile isSpaceChar).reverse.dropWhile isSpaceChar).reverse

def pyStrip (s : String) : String := ⟨pyStripL s.data⟩

/-- Model of Python str.upper restricted to ASCII. -/
def pyUpper (s : String) : String := ⟨s.data.map Char.toUpper⟩

/-- Model of Python str.split(sep) for a one-character separator:
empty pieces are preserved, as in Python. -/
def pySplitChar (sep : Char) : List Char → List (List Char)
  | [] => [[]]
  | c :: cs =>
    if c = sep then [] :: pySplitChar sep cs
    else
      match pySplitChar sep cs with
      | [] => [[c]]
      | p :: ps => (c :: p) :: ps

/-- Model of Python str.split(sep, 2): split on the separator at most twice. -/
def pySplitChar2 (sep : Char) (l : List Char) : List (List Char) :=
  match l.span (fun c => c != sep) with
  | (p1, []) => [p1]
  | (p1, _ :: r1) =>
    match r1.span (fun c => c != sep) with
    | (p2, []) => [p1, p2]
    | (p2, _ :: r2) => [p1, p2, r2]

/-- Value of a digit string, as Python int() on an isdigit-true string. -/
def pyInt (l : List Char) : ℕ := l.foldl (fun a c => 10 * a + (c.toNat - 48)) 0

/-- Model of Python str.isdigit restricted to ASCII digits. -/
def pyIsdigit (s : String) : Bool := !s.data.isEmpty && s.data.all Char.isDigit

/-- Exponent tail of a Python float literal: optional sign then digits,
which must end the string. Returns (sign-is-positive, digits). -/
def pyExpSign : List Char → Option (Bool × List Char)
  | '+' :: d => if !d.isEmpty && d.all Char.isDigit then some (true, d) else none
  | '-' :: d => if !d.isEmpty && d.all Char.isDigit then some (false, d) else none
  | d => if !d.isEmpty && d.all Char.isDigit then some (true, d) else none

/-- Optional exponent part of a Python float literal. -/
def pyExpParse : List Char → Option (Bool × List Char)
  | [] => some (true, [])
  | 'e' :: r => pyExpSign r
  | 'E' :: r => pyExpSign r
  | _ => none

/-- A Python float value: a finite rational, an infinity, or NaN. -/
inductive PyFloat where
  | finite (q : ℚ)
  | inf
  | ninf
  | nan
deriving DecidableEq, Repr

def PyFloat.isNan : PyFloat → Bool
  | nan => true
  | _ => false

/-- IEEE less-or-equal as Python evaluates it on floats: any comparison
with NaN is false; infinities compare as extremes. -/
def PyFloat.le : PyFloat → PyFloat → Bool
  | nan, _ => false
  | _, nan => false
  | ninf, _ => true
  | _, ninf => false
  | finite a, finite b => a ≤ b
  | finite _, inf => true
  | inf, inf => true
  | inf, finite _ => false

/-- IEEE strictly-less as Python evaluates it on floats. -/
def PyFloat.lt : PyFloat → PyFloat → Bool
  | nan, _ => false
  | _, nan => false
  | ninf, ninf => false
  | ninf, _ => true
  | _, ninf => false
  | finite a, finite b => a < b
  | finite _, inf => true
  | inf, _ => false

/-- Negation of a Python float; the sign of a NaN literal is ignored. -/
def PyFloat.neg : PyFloat → PyFloat
  | finite q => finite (-q)
  | inf => ninf
  | ninf => inf
  | nan => nan

/-- Rational value of a finite float literal: integer digits, fraction
digits, exponent sign and exponent digits. -/
def pyFloatVal (ip fp : List Char) (expSgn : Bool) (ed : List Char) : ℚ :=
  let m : ℕ := pyInt ip * 10 ^ fp.length + pyInt fp
  if expSgn then mkRat ((m : ℤ) * 10 ^ pyInt ed) (10 ^ fp.length)
  else mkRat (m : ℤ) (10 ^ fp.length * 10 ^ pyInt ed)

/-- The named non-finite float literals accepted by Python float(),
case-insensitively: inf, infinity and nan. -/
def pyFloatNamed (l : List Char) : Option PyFloat :=
  if l.map Char.toLower = "inf".data ∨ l.map Char.toLower = "infinity".data then
    some PyFloat.inf
  else if l.map Char.toLower = "nan".data then some PyFloat.nan
  else none

/-- Unsigned part of a Python float literal: a named non-finite literal,
or digits, optional dot and fraction digits (at least one digit
overall), and an optional exponent. -/
def pyFloatMag (l : List Char) : Option PyFloat :=
  match pyFloatNamed l with
  | some v => some v
  | none =>
    let ip := l.takeWhile Char.isDigit
    let r1 := l.dropWhile Char.isDigit
    match r1 with
    | '.' :: r2 =>
      let fp := r2.takeWhile Char.isDigit
      let r3 := r2.dropWhile Char.isDigit
      if ip.isEmpty && fp.isEmpty then none
      else (pyExpParse r3).map (fun p => PyFloat.finite (pyFloatVal ip fp p.1 p.2))
    | _ =>
      if ip.isEmpty then none
      else (pyExpParse r1).map (fun p => PyFloat.finite (pyFloatVal ip [] p.1 p.2))

/-- Model of Python float() on string input, including the non-finite
literals nan, inf and infinity; returns none where float() raises
ValueError.  Underscore digit separators are outside the model (they
affect only which lines parse, and every parsed value passes through
the same admission gate). -/
def pyFloat (s : String) : Option PyFloat :=
  match pyStripL s.data with
  | '+' :: r => pyFloatMag r
  | '-' :: r => (pyFloatMag r).map PyFloat.neg
  | r => pyFloatMag r

/-! clean_text: the four re.sub / replace stages of the source, in order. -/

/-- Stage 1 of clean_text: re.sub removing every asterisk. -/
def removeAsterisks (l : List Char) : List Char := l.filter (fun c => c != '*')

/-- Stage 2 of clean_text: replace each newline with a comma and a space. -/
def replaceNewlines : List Char → List Char
  | [] => []
  | c :: cs => if c = '\n' then ',' :: ' ' :: replaceNewlines cs else c :: replaceNewlines cs

/-- Stage 3 helper: at a word boundary whose first character is a digit,
try to match the numeric-marker pattern (digit run, then a dot, with a
word-character lookahead); on success return the rest of the input
starting at the lookahead character. -/
def afterMark (l : List Char) : Option (List Char) :=
  match l.dropWhile Char.isDigit with
  | '.' :: d :: rest => if isWordChar d then some (d :: rest) else none
  | _ => none

/-- Stage 3 of clean_text: re.sub on the boundary-digit-dot pattern with
word-character lookahead, scanning left to right over the original
string exactly as re.sub does.  The boolean records whether the current
position is at a word boundary (the previous surviving character of the
original string is absent or a non-word character). -/
def stripNM : Bool → List Char → List Char
  | _, [] => []
  | atB, c :: cs =>
    if hd : atB && c.isDigit then
      match h : afterMark (c :: cs) with
      | some l2 => stripNM true l2
      | none => c :: stripNM (!isWordChar c) cs
    else c :: stripNM (!isWordChar c) cs
termination_by _ l => l.length
decreasing_by
  · simp only [afterMark] at h
    have hdig : c.isDigit = true := by
      have := hd
      simp only [Bool.and_eq_true] at this
      exact this.2
    rw [List.dropWhile_cons, if_pos hdig] at h
    have hle : (List.dropWhile Char.isDigit cs).length ≤ cs.length :=
      (List.dropWhile_sublist Char.isDigit).length_le
    split at h
    · split at h
      · cases h
        rename_i heq _
        have := congrArg List.length heq
        simp at this ⊢
        omega
      · cases h
    · cases h
  · simp
  · simp

/-- Stage 4 of clean_text: re.sub removing everything that is neither a
word character nor whitespace. -/
def keepWordSpace (l : List Char) : List Char :=
  l.filter (fun c => isWordChar c || isSpaceChar c)

/-- Model of clean_text from the source: strip asterisks, replace
newlines, strip numeric list markers, strip remaining punctuation. -/
def clean_text (s : String) : String :=
  ⟨keepWordSpace (stripNM true (replaceNewlines (removeAsterisks s.data)))⟩

/-! Data model: knowledge-base rows and scored solutions. -/

/-- A row of the indexed knowledge data: (doc_id, failure, root_cause,
solution), the 4-tuple built by get_devops_knowledgebase. -/
abbrev Doc := ℕ × String × String × String

/-- A scored solution dict as built by create_solution_entry. -/
structure Solution where
  failure : String
  root_cause : String
  solution : String
  confidence : PyFloat
  reason : String
  global_index : ℕ
deriving DecidableEq, Repr

/-- Model of create_solution_entry: reject when confidence is less than
or equal to 0.6 under float comparison (a NaN confidence therefore
passes the gate, as in Python), translate the chunk-local index to a
global one, and reject an out-of-bounds global index.  The Python
isinstance/length guard on the row is always satisfied here because Doc
is the 4-tuple type. -/
def create_solution_entry (local_idx : ℕ) (confidence : PyFloat) (reason : String)
    (chunk_offset : ℕ) (retrieved_docs : List Doc) : Option Solution :=
  if PyFloat.le confidence (PyFloat.finite (mkRat 6 10)) then none
  else if h : chunk_offset + local_idx < retrieved_docs.length then
    some { failure := (retrieved_docs.get ⟨chunk_offset + local_idx, h⟩).2.1,
           root_cause := (retrieved_docs.get ⟨chunk_offset + local_idx, h⟩).2.2.1,
           solution := (retrieved_docs.get ⟨chunk_offset + local_idx, h⟩).2.2.2,
           confidence := confidence, reason := reason,
           global_index := chunk_offset + local_idx }
  else none

/-- The deterministic fallback response line from query_llm_model. -/
def fallbackLine : String := "0 0.8 Fallback selection - keyword matching applied"

/-- The reason text carried by a fallback-scored solution. -/
def fallbackReason : String := "Fallback selection - keyword matching applied"

/-- The marker distinguishing fallback-scored solutions downstream. -/
def fallbackMarker : String := "Fallback"

/-- The Python local variables of the parse loop (local_idx, confidence,
reason); none models a not-yet-bound variable. -/
structure PB where
  li : Option ℕ
  conf : Option PyFloat
  rsn : Option String
deriving DecidableEq, Repr

/-- The pipe-delimited branch of the parse loop on the stripped parts of
one line.  A line failing the format check falls through to
create_solution_entry with whatever bindings are in scope, exactly as
the Python code does: with unbound variables this models the uncaught
UnboundLocalError. -/
def pipeLine (chunk_offset : ℕ) (docs : List Doc) (parts : List (List Char)) (b : PB) :
    Except String (Option Solution × PB) :=
  if 3 ≤ parts.length ∧ pyIsdigit ⟨parts.getD 0 []⟩ then
    match pyFloat ⟨parts.getD 1 []⟩ with
    | none => .ok (none, { b with li := some (pyInt (parts.getD 0 [])) })
    | some cf =>
      match create_solution_entry (pyInt (parts.getD 0 [])) cf ⟨parts.getD 2 []⟩
          chunk_offset docs with
      | some e => .ok (some e, ⟨some (pyInt (parts.getD 0 [])), some cf, some ⟨parts.getD 2 []⟩⟩)
      | none => .ok (none, ⟨some (pyInt (parts.getD 0 [])), some cf, some ⟨parts.getD 2 []⟩⟩)
  else
    match b with
    | ⟨some li, some cf, some rs⟩ =>
      match create_solution_entry li cf rs chunk_offset docs with
      | some e => .ok (some e, b)
      | none => .ok (none, b)
    | _ => .error "UnboundLocalError"

/-- The whitespace-delimited branch of the parse loop on the
split-at-most-twice parts of one line; a failing format check skips the
line (the explicit continue of the source). -/
def spaceLine (chunk_offset : ℕ) (docs : List Doc) (parts : List (List Char)) (b : PB) :
    Except String (Option Solution × PB) :=
  if 2 ≤ parts.length ∧ pyIsdigit ⟨parts.getD 0 []⟩ then
    match pyFloat ⟨parts.getD 1 []⟩ with
    | none => .ok (none, { b with li := some (pyInt (parts.getD 0 [])) })
    | some cf =>
      match create_solution_entry (pyInt (parts.getD 0 [])) cf
          (if 2 < parts.length then (⟨parts.getD 2 []⟩ : String) else "Selected by LLM")
          chunk_offset docs with
      | some e => .ok (some e, ⟨some (pyInt (parts.getD 0 [])), some cf,
          some (if 2 < parts.length then (⟨parts.getD 2 []⟩ : String) else "Selected by LLM")⟩)
      | none => .ok (none, ⟨some (pyInt (parts.getD 0 [])), some cf,
          some (if 2 < parts.length then (⟨parts.getD 2 []⟩ : String) else "Selected by LLM")⟩)
  else .ok (none, b)

/-- One iteration of the parse loop of parse_llm_response on a single
line: returns the optionally emitted solution and the updated variable
bindings, or an error where the Python code would raise. -/
def parseLine (chunk_offset : ℕ) (docs : List Doc) (line : String) (b : PB) :
    Except String (Option Solution × PB) :=
  if (pyStripL line.data).isEmpty then .ok (none, b)
  else if (pyStripL line.data).contains '|' then
    pipeLine chunk_offset docs ((pySplitChar '|' (pyStripL line.data)).map pyStripL) b
  else
    spaceLine chunk_offset docs (pySplitChar2 ' ' (pyStripL line.data)) b

/-- The parse loop of parse_llm_response over the split lines. -/
def parseLines (chunk_offset : ℕ) (docs : List Doc) :
    List String → PB → List Solution → Except String (List Solution)
  | [], _, acc => .ok acc
  | ln :: rest, b, acc =>
    match parseLine chunk_offset docs ln b with
    | .error e => .error e
    | .ok (none, b2) => parseLines chunk_offset docs rest b2 acc
    | .ok (some e, b2) => parseLines chunk_offset docs rest b2 (acc ++ [e])

/-- Model of parse_llm_response: the whole-response NONE check, then the
line loop.  The chunk argument is unused, as in the source. -/
def parse_llm_response (response : String) (chunk : List String)
    (chunk_offset : ℕ) (retrieved_docs : List Doc) : Except String (List Solution) :=
  if pyStrip (pyUpper response) = "NONE" then .ok []
  else
    parseLines chunk_offset retrieved_docs
      ((pySplitChar '\n' response.data).map (fun l => (⟨l⟩ : String)))
      ⟨none, none, none⟩ []

/-! Result sorting: model of list.sort(key=confidence, reverse=True),
a stable descending sort. -/

/-- Insert into a confidence-descending list, before the first element
whose confidence does not exceed the inserted one (stability: the
inserted element precedes equal-confidence elements that followed it). -/
def insertDesc (x : Solution) : List Solution → List Solution
  | [] => [x]
  | y :: ys =>
    if PyFloat.le y.confidence x.confidence then x :: y :: ys else y :: insertDesc x ys

/-- Stable descending sort by confidence, as the in-place Python sort in
display_hackathon_results.  Faithful to list.sort(key=confidence,
reverse=True) whenever all keys are comparable (no NaN); with a NaN key
CPython's comparison sort gives an implementation-dependent, possibly
non-descending arrangement that this model does not reproduce, so order
statements are proved only under a no-NaN hypothesis and only
permutation-invariant facts are used elsewhere. -/
def pySortDesc (l : List Solution) : List Solution := l.foldr insertDesc []

/-! Chunked LLM scoring. -/

/-- Model of Python range(start, stop, step) for a positive step
(range raises for step 0, modelled as the empty list). -/
def pyRange (start stop step : ℕ) : List ℕ :=
  if 0 < step then (List.range ((stop - start + step - 1) / step)).map (fun k => start + k * step)
  else []

/-- The chunk slice cleaned[chunk_start:chunk_end] with
chunk_end = min(chunk_start + chunk_size, len(cleaned)). -/
def chunkAt (cleaned : List String) (cs C : ℕ) : List String :=
  (cleaned.drop cs).take (min (cs + C) cleaned.length - cs)

/-- Rendering of the enumerated chunk, standing in for the Python repr
of the (index, text) tuple list inside the prompt. -/
def solutionsTextFor (chunk : List String) : String :=
  String.intercalate ", " (chunk.enum.map (fun p => "(" ++ toString p.1 ++ ", " ++ p.2 ++ ")"))

/-- The per-chunk prompt assembled by query_llm_model. -/
def promptFor (issue : String) (chunk : List String) : String :=
  "Issue: " ++ issue ++ "\n\nAvailable Solutions:\n" ++ solutionsTextFor chunk ++
    "\n\nReturn the most relevant solution indices as integers, one per line along with confidence score and reason. If no solution is relevant, return \"None\".\n\nYour response:"

/-- The per-chunk loop of query_llm_model: invoke the transport, fall
back to the deterministic line when it raises, parse, and concatenate.
A parse error (the UnboundLocalError path) propagates, as it is raised
outside the try block of the source. -/
def scoreChunks (llm : String → Except String String) (cleaned : List String)
    (issue : String) (docs : List Doc) (C : ℕ) : List ℕ → Except String (List Solution)
  | [] => .ok []
  | cs :: rest =>
    let chunk := chunkAt cleaned cs C
    let raw := match llm (promptFor issue chunk) with
      | .ok r => pyStrip r
      | .error _ => fallbackLine
    match parse_llm_response raw chunk cs docs with
    | .error e => .error e
    | .ok sols =>
      match scoreChunks llm cleaned issue docs C rest with
      | .error e => .error e
      | .ok more => .ok (sols ++ more)

/-- Model of query_llm_model: empty candidates short-circuit; otherwise
score every chunk and sort the concatenation by descending confidence
(display_hackathon_results sorts the list in place before it is
returned). -/
def query_llm_model (llm : String → Except String String)
    (cleaned_retrieved_docs : List String) (issue_description : String)
    (retrieved_docs : List Doc) (chunk_size : ℕ) : Except String (List Solution) :=
  if retrieved_docs.isEmpty then .ok []
  else
    (scoreChunks llm cleaned_retrieved_docs issue_description retrieved_docs chunk_size
      (pyRange 0 cleaned_retrieved_docs.length chunk_size)).map pySortDesc

/-- All global indices chunk_start + local_index reachable over the
chunk loop, before any confidence filtering: chunk starts come from the
range call of query_llm_model and local indices from enumerating the
chunk slice. -/
def coveredIndices (cleaned : List String) (C : ℕ) : List ℕ :=
  ((pyRange 0 cleaned.length C).map
    (fun cs => (List.range (chunkAt cleaned cs C).length).map (fun j => cs + j))).flatten

/-! FAISS query with load-failure handling. -/

/-- The cleaned text built for a retrieved row. -/
def docText (row : Doc) : String :=
  "failure: " ++ clean_text row.2.1 ++ ", root_cause: " ++ clean_text row.2.2.1 ++
    ", solution: " ++ clean_text row.2.2.2

/-- Python list indexing with negative-index support; none models
IndexError. -/
def pyIndex (l : List Doc) (i : ℤ) : Option Doc :=
  if 0 ≤ i then l.get? i.toNat
  else if (-i).toNat ≤ l.length then l.get? (l.length - (-i).toNat) else none

/-- The list comprehension over search indices, skipping the FAISS
no-match sentinel -1; none models an uncaught IndexError inside the
comprehension. -/
def gatherDocs (data : List Doc) : List ℤ → Option (List Doc)
  | [] => some []
  | i :: is =>
    if i = -1 then gatherDocs data is
    else
      match pyIndex data i with
      | none => none
      | some d => (gatherDocs data is).map (fun r => d :: r)

/-- Model of query_faiss_index: the index read, metadata load and result
gathering, with every failure caught and degraded to empty lists.  Disk
and FAISS effects are environment parameters. -/
def query_faiss_index (indexLoad : Except String Unit) (dataLoad : Except String (List Doc))
    (searchIdxs : List ℤ) (query : String) : List String × List Doc :=
  match indexLoad with
  | .error _ => ([], [])
  | .ok _ =>
    match dataLoad with
    | .error _ => ([], [])
    | .ok indexed_data =>
      match gatherDocs indexed_data searchIdxs with
      | none => ([], [])
      | some retrieved_docs => (retrieved_docs.map docText, retrieved_docs)

/-! Knowledge base. -/

/-- A knowledge-base record (failure, root_cause, solution). -/
structure Issue where
  failure : String
  root_cause : String
  solution : String
deriving DecidableEq, Repr

/-- The built-in knowledge base of the source, verbatim. -/
def create_devops_knowledge_base : List Issue :=
  [⟨"Docker Build Failure - Permission Denied",
    "Docker build fails with permission denied error when user lacks proper Docker daemon access rights",
    "1. Add user to docker group: sudo usermod -aG docker $USER 2. Restart Docker service: sudo systemctl restart docker 3. Check Docker daemon permissions: sudo chmod 666 /var/run/docker.sock"⟩,
   ⟨"Jenkins Build Timeout",
    "Jenkins builds exceed configured timeout limits due to resource constraints or inefficient build processes",
    "1. Increase build timeout in Jenkins job configuration 2. Optimize build steps and remove unnecessary operations 3. Check system resources (CPU, memory, disk) 4. Review build logs for bottlenecks"⟩,
   ⟨"Kubernetes Pod CrashLoopBackOff",
    "Pod continuously crashes and restarts due to application errors, resource limits, or misconfiguration",
    "1. Check pod logs: kubectl logs <pod-name> 2. Verify resource limits and requests 3. Check liveness/readiness probes 4. Review container startup command and environment variables"⟩,
   ⟨"GitLab CI Pipeline Failure - Dependency Issues",
    "Pipeline fails due to missing, incompatible, or outdated dependencies in the build environment",
    "1. Update package versions in requirements/package files 2. Clear dependency cache: rm -rf node_modules, pip cache purge 3. Lock dependency versions 4. Verify package registry connectivity"⟩,
   ⟨"Unable to find image 'nginx:latest' locally docker: Error response from daemon: toomanyrequests",
    "Docker Hub rate limiting exceeded. Anonymous pulls limited to 100 per 6 hours, authenticated users get 200 per 6 hours",
    "1. Login to Docker Hub: docker login 2. Use Docker Hub Pro/Team account for higher limits 3. Implement image caching strategy 4. Use alternative registries or mirrors"⟩,
   ⟨"Branch not set issue - HEAD detached from FETCH_HEAD",
    "Git repository is in detached HEAD state, usually after pulling changes without proper branch checkout",
    "1. Create and switch to branch: git checkout -b <branch-name> 2. Or switch to existing branch: git checkout <branch-name> 3. Push changes: git push origin <branch-name>"⟩,
   ⟨"Ansible Playbook Failed - SSH Connection Timeout",
    "Ansible cannot establish SSH connection to target hosts due to network issues, authentication problems, or firewall restrictions",
    "1. Verify SSH connectivity: ssh user@host 2. Check SSH keys: ssh-add -l 3. Update inventory with correct IPs/hostnames 4. Configure SSH timeout in ansible.cfg"⟩,
   ⟨"Terraform Apply Failed - Resource Already Exists",
    "Terraform tries to create resources that already exist, usually due to state file mismatch or manual resource creation outside Terraform",
    "1. Import existing resources: terraform import 2. Update state file: terraform refresh 3. Use terraform plan to review changes 4. Consider using data sources for existing resources"⟩]

/-- The enumerate loop of get_devops_knowledgebase: attach 0-based ids. -/
def attachIds (issues : List Issue) : List Doc :=
  issues.enum.map (fun p => (p.1, p.2.failure, p.2.root_cause, p.2.solution))

/-- Model of get_devops_knowledgebase: a truthy database result is used,
otherwise (absent database or empty result) the built-in list; both
paths attach ids by enumeration. -/
def get_devops_knowledgebase : Option (List Issue) → List Doc
  | some issues =>
    if issues.isEmpty then attachIds create_devops_knowledge_base else attachIds issues
  | none => attachIds create_devops_knowledge_base

/-! The caller-facing entry point. -/

/-- External effects of one main invocation: embedding-model load,
pipeline-log fetch (get_actual_devops_data result), vectorization,
index/metadata loads, FAISS search output and the LLM transport.  An
error value models the corresponding Python call raising. -/
structure Env where
  modelLoad : Except String Unit
  db : Option (List Issue)
  fetchData : String → Except String (String × String)
  vectorize : Except String Unit
  indexLoad : Except String Unit
  dataLoad : Except String (List Doc)
  searchIdxs : List ℤ
  llm : String → Except String String

/-- The body of main inside its try block, in source order. -/
def mainBody (env : Env) (input_query : String) : Except String (List Solution) := do
  let _ ← env.modelLoad
  let qr ← env.fetchData input_query
  let _kb := get_devops_knowledgebase env.db
  let _ ← env.vectorize
  let (cleaned, docs) := query_faiss_index env.indexLoad env.dataLoad env.searchIdxs qr.2
  query_llm_model env.llm cleaned qr.2 docs 10

/-- Model of main: the catch-all handler returns the empty list and
prints a diagnostic; the printed diagnostic is modelled as the second
component of the result. -/
def main (env : Env) (input_query : String) : List Solution × Option String :=
  match mainBody env input_query with
  | .ok sols => (sols, none)
  | .error e => ([], some ("❌ Error in DevOps analysis: " ++ e))

/-! Concrete values used by witnesses and counterexamples. -/

def demoDoc : Doc := (0, "f", "r", "s")

def demoSol : Solution :=
  { failure := "f", root_cause := "r", solution := "s",
    confidence := PyFloat.finite (mkRat 8 10), reason := "ok", global_index := 0 }

/-- The solution admitted from the response line 0 nan x: its NaN
confidence passes the gate because nan is not less-or-equal to 0.6. -/
def nanSol : Solution :=
  { failure := "f", root_cause := "r", solution := "s",
    confidence := PyFloat.nan, reason := "x", global_index := 0 }

def cexDocs : List Doc := [(0, "f0", "r0", "s0"), (1, "f1", "r1", "s1")]

def cexSolA : Solution :=
  { failure := "f1", root_cause := "r1", solution := "s1",
    confidence := PyFloat.finite (mkRat 7 10), reason := "a", global_index := 1 }

def cexSolB : Solution :=
  { failure := "f0", root_cause := "r0", solution := "s0",
    confidence := PyFloat.finite (mkRat 7 10), reason := "b", global_index := 0 }

def envBad : Env :=
  { modelLoad := .error "no model", db := none,
    fetchData := fun q => .ok ("user input", q), vectorize := .ok (),
    indexLoad := .ok (), dataLoad := .ok [], searchIdxs := [],
    llm := fun _ => .ok "None" }

/-! Properties of create_solution_entry. -/

theorem create_some_spec {li : ℕ} {cf : PyFloat} {rs : String} {off : ℕ} {docs : List Doc}
    {s : Solution} (h : create_solution_entry li cf rs off docs = some s) :
    PyFloat.le cf (PyFloat.finite (mkRat 6 10)) = false ∧ s.confidence = cf ∧
      s.reason = rs ∧ s.global_index = off + li ∧ s.global_index < docs.length := by
  unfold create_solution_entry at h
  split_ifs at h with h1 h2 <;> cases h
  exact ⟨by simpa using h1, rfl, rfl, rfl, h2⟩

theorem create_isSome_iff (li : ℕ) (cf : PyFloat) (rs : String) (off : ℕ) (docs : List Doc) :
    (create_solution_entry li cf rs off docs).isSome = true ↔
      (PyFloat.le cf (PyFloat.finite (mkRat 6 10)) = false ∧ off + li < docs.length) := by
  unfold create_solution_entry
  split_ifs with h1 h2
  · simp [h1]
  · simp only [Option.isSome_some, true_iff]
    exact ⟨by simpa using h1, h2⟩
  · simp [h2]

theorem create_none_of_oob (li : ℕ) (cf : PyFloat) (rs : String) (off : ℕ) (docs : List Doc)
    (h : docs.length ≤ off + li) : create_solution_entry li cf rs off docs = none := by
  unfold create_solution_entry
  split_ifs with h1 h2
  · rfl
  · omega
  · rfl

/-! Properties of the parse loop. -/

theorem pipeLine_ok_some {off : ℕ} {docs : List Doc} {parts : List (List Char)} {b b2 : PB}
    {e : Solution} (h : pipeLine off docs parts b = .ok (some e, b2)) :
    ∃ li cf rs, create_solution_entry li cf rs off docs = some e := by
  unfold pipeLine at h
  split_ifs at h with h1
  · split at h
    · simp at h
    · split at h
      · rename_i e2 heq
        simp only [Except.ok.injEq, Prod.mk.injEq, Option.some.injEq] at h
        exact ⟨_, _, _, h.1 ▸ heq⟩
      · simp at h
  · obtain ⟨bli, bcf, brs⟩ := b
    cases bli <;> cases bcf <;> cases brs <;> try simp at h
    rename_i li cf rs
    split at h
    · rename_i e2 heq
      simp only [Except.ok.injEq, Prod.mk.injEq, Option.some.injEq] at h
      exact ⟨_, _, _, h.1 ▸ heq⟩
    · simp at h

theorem spaceLine_ok_some {off : ℕ} {docs : List Doc} {parts : List (List Char)} {b b2 : PB}
    {e : Solution} (h : spaceLine off docs parts b = .ok (some e, b2)) :
    ∃ li cf rs, create_solution_entry li cf rs off docs = some e := by
  unfold spaceLine at h
  split_ifs at h with h1 h2
  · split at h
    · simp at h
    · split at h
      · rename_i e2 heq
        simp only [Except.ok.injEq, Prod.mk.injEq, Option.some.injEq] at h
        exact ⟨_, _, _, h.1 ▸ heq⟩
      · simp at h
  · split at h
    · simp at h
    · split at h
      · rename_i e2 heq
        simp only [Except.ok.injEq, Prod.mk.injEq, Option.some.injEq] at h
        exact ⟨_, _, _, h.1 ▸ heq⟩
      · simp at h
  · simp at h

theorem parseLine_ok_some {off : ℕ} {docs : List Doc} {ln : String} {b b2 : PB}
    {e : Solution} (h : parseLine off docs ln b = .ok (some e, b2)) :
    ∃ li cf rs, create_solution_entry li cf rs off docs = some e := by
  unfold parseLine at h
  split_ifs at h with h1 h2
  · cases h
  · exact pipeLine_ok_some h
  · exact spaceLine_ok_some h

theorem parseLines_ok_mem {off : ℕ} {docs : List Doc} :
    ∀ (lines : List String) (b : PB) (acc sols : List Solution),
      parseLines off docs lines b acc = .ok sols → ∀ s ∈ sols,
        s ∈ acc ∨ ∃ li cf rs, create_solution_entry li cf rs off docs = some s := by
  intro lines
  induction lines with
  | nil =>
    intro b acc sols h s hs
    simp only [parseLines] at h
    cases h
    exact Or.inl hs
  | cons ln rest ih =>
    intro b acc sols h s hs
    simp only [parseLines] at h
    split at h
    · cases h
    · exact ih _ _ _ h s hs
    · rcases ih _ _ _ h s hs with hacc | hcr
      · rcases List.mem_append.mp hacc with hl | hr
        · exact Or.inl hl
        · rcases List.mem_singleton.mp hr with rfl
          rename_i heq
          exact Or.inr (parseLine_ok_some heq)
      · exact Or.inr hcr

theorem parse_ok_mem {resp : String} {chunk : List String} {off : ℕ} {docs : List Doc}
    {sols : List Solution} (h : parse_llm_response resp chunk off docs = .ok sols) :
    ∀ s ∈ sols, ∃ li cf rs, create_solution_entry li cf rs off docs = some s := by
  unfold parse_llm_response at h
  split_ifs at h
  · cases h
    intro s hs
    cases hs
  · intro s hs
    rcases parseLines_ok_mem _ _ _ _ h s hs with habs | hcr
    · cases habs
    · exact hcr

/-! Claim theorems: admission threshold, parser totality, bounds. -/

theorem pf_not_le_iff (cf : PyFloat) :
    PyFloat.le cf (PyFloat.finite (mkRat 6 10)) = false ↔
      (PyFloat.lt (PyFloat.finite (mkRat 6 10)) cf = true ∨ cf = PyFloat.nan) := by
  cases cf <;> simp [PyFloat.le, PyFloat.lt]

/-- C1 counterexample: the response line 0 nan x is turned into a
returned solution (float nan passes the gate because nan is not
less-or-equal to 0.6 under float comparison), yet that solution's
confidence is not strictly greater than 0.6; so admission is not
equivalent to confidence strictly greater than 0.6. -/
theorem confidence_gate_nan_cex :
    parse_llm_response "0 nan x" [] 0 [demoDoc] = .ok [nanSol] ∧
    PyFloat.lt (PyFloat.finite (mkRat 6 10)) nanSol.confidence = false :=
  ⟨rfl, rfl⟩

/-- C1 amended: a solution entry is admitted if and only if its
confidence is NOT less-or-equal to 0.6 under float comparison and its
global index is in bounds; every solution in a parsed list satisfies
that same gate; and not-less-or-equal to 0.6 is exactly confidence
strictly greater than 0.6 or a NaN confidence (so for non-NaN
confidences the original strictly-greater-than-0.6 rule holds, and a
line with confidence at most 0.6 is never turned into a solution). -/
theorem confidence_gate_not_le :
    (∀ (li : ℕ) (cf : PyFloat) (rs : String) (off : ℕ) (docs : List Doc),
      (create_solution_entry li cf rs off docs).isSome = true ↔
        (PyFloat.le cf (PyFloat.finite (mkRat 6 10)) = false ∧ off + li < docs.length)) ∧
    (∀ (resp : String) (chunk : List String) (off : ℕ) (docs : List Doc)
      (sols : List Solution), parse_llm_response resp chunk off docs = .ok sols →
      ∀ s ∈ sols, PyFloat.le s.confidence (PyFloat.finite (mkRat 6 10)) = false) ∧
    (∀ cf : PyFloat, PyFloat.le cf (PyFloat.finite (mkRat 6 10)) = false ↔
      (PyFloat.lt (PyFloat.finite (mkRat 6 10)) cf = true ∨ cf = PyFloat.nan)) := by
  refine ⟨create_isSome_iff, ?_, pf_not_le_iff⟩
  intro resp chunk off docs sols h s hs
  obtain ⟨li, cf, rs, hc⟩ := parse_ok_mem h s hs
  obtain ⟨hle, hconf, -⟩ := create_some_spec hc
  rw [hconf]
  exact hle

/-- Witness for the amended C1 at a concrete parsed response. -/
theorem confidence_gate_not_le_witness :
    PyFloat.le demoSol.confidence (PyFloat.finite (mkRat 6 10)) = false :=
  confidence_gate_not_le.2.1 "0 0.8 ok" [] 0 [demoDoc] [demoSol] rfl demoSol
    (List.mem_singleton_self demoSol)

/-- C2: the claim that parse_llm_response never raises is violated by
the code: a pipe-delimited line that fails the format check falls
through to create_solution_entry and, with no binding in scope, raises
UnboundLocalError, which the per-line handler (catching only ValueError
and IndexError) does not catch. -/
theorem parse_malformed_pipe_raises :
    parse_llm_response "foo | bar | baz" [] 0 [demoDoc] =
      Except.error "UnboundLocalError" := rfl

/-- C5: an accepted line whose translated global index falls outside the
candidate list is discarded, and every emitted solution has a global
index that is a valid position in the candidate list. -/
theorem global_index_bounds :
    (∀ (li : ℕ) (cf : PyFloat) (rs : String) (off : ℕ) (docs : List Doc),
      docs.length ≤ off + li → create_solution_entry li cf rs off docs = none) ∧
    (∀ (resp : String) (chunk : List String) (off : ℕ) (docs : List Doc)
      (sols : List Solution), parse_llm_response resp chunk off docs = .ok sols →
      ∀ s ∈ sols, s.global_index < docs.length) := by
  refine ⟨create_none_of_oob, ?_⟩
  intro resp chunk off docs sols h s hs
  obtain ⟨li, cf, rs, hc⟩ := parse_ok_mem h s hs
  exact (create_some_spec hc).2.2.2.2

/-- Witness for C5: an out-of-bounds index is rejected. -/
theorem global_index_bounds_witness :
    create_solution_entry 5 (PyFloat.finite (mkRat 9 10)) "r" 0 [demoDoc] = none :=
  global_index_bounds.1 5 (PyFloat.finite (mkRat 9 10)) "r" 0 [demoDoc] (by simp)

/-- C6: the entry point never raises; an internal failure is caught and
degraded to the empty result list together with the diagnostic message,
while a successful body returns its solutions unchanged. -/
theorem main_degrades_on_failure :
    ∀ (env : Env) (q : String),
      (∀ e, mainBody env q = .error e →
        main env q = ([], some ("❌ Error in DevOps analysis: " ++ e))) ∧
      (∀ sols, mainBody env q = .ok sols → main env q = (sols, none)) := by
  intro env q
  constructor
  · intro e he
    unfold main
    rw [he]
  · intro sols hs
    unfold main
    rw [hs]

/-- Witness for C6 at an environment whose model load raises. -/
theorem main_degrades_on_failure_witness :
    main envBad "q" = ([], some ("❌ Error in DevOps analysis: " ++ "no model")) :=
  (main_degrades_on_failure envBad "q").1 "no model" rfl

/-- C9: a missing or unreadable index file or metadata file makes the
retrieval step return empty candidate lists instead of raising. -/
theorem faiss_load_failure_empty :
    ∀ (indexLoad : Except String Unit) (dataLoad : Except String (List Doc))
      (searchIdxs : List ℤ) (query : String),
      (∃ e, indexLoad = .error e) ∨ (∃ e, dataLoad = .error e) →
      query_faiss_index indexLoad dataLoad searchIdxs query = ([], []) := by
  intro iL dL sIdx q h
  rcases h with ⟨e, he⟩ | ⟨e, he⟩
  · rw [he]
    rfl
  · cases iL with
    | error e2 => rfl
    | ok u =>
      rw [he]
      rfl

/-- Witness for C9 with a missing index file. -/
theorem faiss_load_failure_empty_witness :
    query_faiss_index (.error "missing index") (.ok []) [] "q" = ([], []) :=
  faiss_load_failure_empty _ _ _ _ (Or.inl ⟨"missing index", rfl⟩)

/-! Knowledge-base ids. -/

theorem attachIds_map_fst (l : List Issue) :
    (attachIds l).map (fun d => d.1) = List.range l.length := by
  unfold attachIds
  rw [List.map_map]
  exact List.enum_map_fst l

theorem attachIds_length (l : List Issue) : (attachIds l).length = l.length := by
  simp [attachIds]

/-- C10: every load of the knowledge base, from the database or from the
built-in list, assigns ids that are exactly the 0-based positions of the
entries: consecutive, unique, and equal to each position. -/
theorem knowledgebase_ids_positional :
    ∀ db : Option (List Issue),
      (get_devops_knowledgebase db).map (fun d => d.1) =
        List.range (get_devops_knowledgebase db).length := by
  intro db
  cases db with
  | none =>
    simp only [get_devops_knowledgebase]
    rw [attachIds_map_fst, attachIds_length]
  | some issues =>
    simp only [get_devops_knowledgebase]
    split_ifs
    · rw [attachIds_map_fst, attachIds_length]
    · rw [attachIds_map_fst, attachIds_length]

/-! Properties of the stable descending sort. -/

theorem mem_insertDesc (a x : Solution) (l : List Solution) :
    a ∈ insertDesc x l ↔ a = x ∨ a ∈ l := by
  induction l with
  | nil => simp [insertDesc]
  | cons y ys ih =>
    simp only [insertDesc]
    split_ifs
    · simp
    · simp only [List.mem_cons, ih]
      tauto

theorem length_insertDesc (x : Solution) (l : List Solution) :
    (insertDesc x l).length = l.length + 1 := by
  induction l with
  | nil => rfl
  | cons y ys ih =>
    simp only [insertDesc]
    split_ifs
    · rfl
    · simp [ih]

theorem pySortDesc_cons (x : Solution) (l : List Solution) :
    pySortDesc (x :: l) = insertDesc x (pySortDesc l) := rfl

theorem mem_pySortDesc (a : Solution) (l : List Solution) :
    a ∈ pySortDesc l ↔ a ∈ l := by
  induction l with
  | nil => simp [pySortDesc]
  | cons x t ih =>
    rw [pySortDesc_cons]
    rw [mem_insertDesc, ih]
    simp

theorem length_pySortDesc (l : List Solution) : (pySortDesc l).length = l.length := by
  induction l with
  | nil => rfl
  | cons x t ih =>
    rw [pySortDesc_cons, length_insertDesc, ih]
    rfl

theorem pfle_refl {a : PyFloat} (h : a.isNan = false) : PyFloat.le a a = true := by
  cases a <;> simp_all [PyFloat.le, PyFloat.isNan]

theorem pfle_total {a b : PyFloat} (ha : a.isNan = false) (hb : b.isNan = false)
    (h : PyFloat.le a b = false) : PyFloat.le b a = true := by
  cases a <;> cases b <;> simp_all [PyFloat.le, PyFloat.isNan]
  exact le_of_lt h

theorem pfle_trans {a b c : PyFloat} (h1 : PyFloat.le a b = true)
    (h2 : PyFloat.le b c = true) : PyFloat.le a c = true := by
  cases a <;> cases b <;> cases c <;> simp_all [PyFloat.le]
  exact le_trans h1 h2

theorem pairwise_insertDesc (x : Solution) (l : List Solution)
    (hx : x.confidence.isNan = false) (hl : ∀ y ∈ l, y.confidence.isNan = false)
    (h : l.Pairwise (fun a b => PyFloat.le b.confidence a.confidence = true)) :
    (insertDesc x l).Pairwise (fun a b => PyFloat.le b.confidence a.confidence = true) := by
  revert hl h
  induction l with
  | nil =>
    intro hl h
    simp [insertDesc, List.pairwise_cons]
  | cons y ys ih =>
    intro hl h
    rcases List.pairwise_cons.mp h with ⟨hy, hys⟩
    simp only [insertDesc]
    split_ifs with hle
    · refine List.pairwise_cons.mpr ⟨?_, h⟩
      intro z hz
      rcases List.mem_cons.mp hz with rfl | hz2
      · exact hle
      · exact pfle_trans (hy z hz2) hle
    · refine List.pairwise_cons.mpr
        ⟨?_, ih (fun w hw => hl w (List.mem_cons_of_mem y hw)) hys⟩
      intro z hz
      rcases (mem_insertDesc z x ys).mp hz with rfl | hz2
      · exact pfle_total (hl y (List.mem_cons_self y ys)) hx (by simpa using hle)
      · exact hy z hz2

theorem filter_insertDesc (c : PyFloat) (x : Solution) (l : List Solution)
    (hx : x.confidence.isNan = false) (hl : ∀ y ∈ l, y.confidence.isNan = false) :
    (insertDesc x l).filter (fun s => decide (s.confidence = c)) =
      if x.confidence = c then
        x :: l.filter (fun s => decide (s.confidence = c))
      else l.filter (fun s => decide (s.confidence = c)) := by
  revert hl
  induction l with
  | nil =>
    intro hl
    simp only [insertDesc, List.filter]
    split_ifs with hx2
    · simp [hx2]
    · simp [hx2]
  | cons y ys ih =>
    intro hl
    simp only [insertDesc]
    by_cases hle : PyFloat.le y.confidence x.confidence = true
    · rw [if_pos hle]
      by_cases hx2 : x.confidence = c
      · rw [if_pos hx2]
        simp [List.filter_cons, hx2]
      · rw [if_neg hx2]
        simp [List.filter_cons, hx2]
    · rw [if_neg hle]
      have ihy := ih (fun w hw => hl w (List.mem_cons_of_mem y hw))
      by_cases hx2 : x.confidence = c
      · rw [if_pos hx2]
        have hy : ¬y.confidence = c := by
          intro hyc
          apply hle
          rw [hyc, ← hx2]
          exact pfle_refl hx
        simp [List.filter_cons, hy, hx2, ihy]
      · rw [if_neg hx2]
        simp [List.filter_cons, ihy, hx2]

theorem sorted_pySortDesc (l : List Solution)
    (hl : ∀ s ∈ l, s.confidence.isNan = false) :
    (pySortDesc l).Pairwise (fun a b => PyFloat.le b.confidence a.confidence = true) := by
  revert hl
  induction l with
  | nil =>
    intro hl
    simp [pySortDesc]
  | cons x t ih =>
    intro hl
    rw [pySortDesc_cons]
    refine pairwise_insertDesc x _ (hl x (List.mem_cons_self x t)) ?_
      (ih (fun w hw => hl w (List.mem_cons_of_mem x hw)))
    intro y hy
    exact hl y (List.mem_cons_of_mem x ((mem_pySortDesc y t).mp hy))

theorem filter_pySortDesc (c : PyFloat) (l : List Solution)
    (hl : ∀ s ∈ l, s.confidence.isNan = false) :
    (pySortDesc l).filter (fun s => decide (s.confidence = c)) =
      l.filter (fun s => decide (s.confidence = c)) := by
  revert hl
  induction l with
  | nil =>
    intro hl
    rfl
  | cons x t ih =>
    intro hl
    rw [pySortDesc_cons, filter_insertDesc c x (pySortDesc t) (hl x (List.mem_cons_self x t))
      (fun w hw => hl w (List.mem_cons_of_mem x ((mem_pySortDesc w t).mp hw)))]
    have iht := ih (fun w hw => hl w (List.mem_cons_of_mem x hw))
    split_ifs with hx2
    · simp [List.filter_cons, hx2, iht]
    · simp [List.filter_cons, hx2, iht]

/-- C3 counterexample: with two candidates and equal-confidence LLM
lines listed out of candidate order, the scorer returns the solution for
candidate 1 before the one for candidate 0 at equal confidence, so ties
are NOT broken by original candidate position. -/
theorem sort_tie_candidate_order_cex :
    query_llm_model (fun _ => Except.ok "1 0.7 a\n0 0.7 b") ["c0", "c1"] "q" cexDocs 10 =
      .ok [cexSolA, cexSolB] ∧
    cexSolA.confidence = cexSolB.confidence ∧
    cexSolB.global_index < cexSolA.global_index :=
  ⟨rfl, rfl, by decide⟩

/-- C3 amended: the final solution list is the stable sort of the
emitted solutions by the descending float comparison; when every emitted
confidence is comparable (not NaN) it is sorted by non-increasing
confidence, and solutions of equal confidence keep the order in which
they were emitted (chunk order, then response line order), which need
not be the original candidate order.  With a NaN confidence present
(reachable, since a NaN confidence passes the admission gate) no
descending order is guaranteed by the comparison sort. -/
theorem sort_desc_stable_emission :
    ∀ (llm : String → Except String String) (cleaned : List String) (issue : String)
      (docs : List Doc) (C : ℕ) (emitted sols : List Solution),
      docs.isEmpty = false →
      (∀ s ∈ emitted, s.confidence.isNan = false) →
      scoreChunks llm cleaned issue docs C (pyRange 0 cleaned.length C) = .ok emitted →
      query_llm_model llm cleaned issue docs C = .ok sols →
      sols = pySortDesc emitted ∧
      sols.Pairwise (fun a b => PyFloat.le b.confidence a.confidence = true) ∧
      ∀ c : PyFloat, sols.filter (fun s => decide (s.confidence = c)) =
        emitted.filter (fun s => decide (s.confidence = c)) := by
  intro llm cleaned issue docs C emitted sols hne hnan hsc hq
  unfold query_llm_model at hq
  rw [hne] at hq
  rw [hsc] at hq
  simp only [Bool.false_eq_true, if_false, Except.map] at hq
  cases hq
  exact ⟨rfl, sorted_pySortDesc _ hnan, fun c => filter_pySortDesc c _ hnan⟩

/-- Witness for the amended C3 at the counterexample input. -/
theorem sort_desc_stable_emission_witness :
    [cexSolA, cexSolB] = pySortDesc [cexSolA, cexSolB] :=
  (sort_desc_stable_emission (fun _ => Except.ok "1 0.7 a\n0 0.7 b") ["c0", "c1"] "q"
    cexDocs 10 [cexSolA, cexSolB] [cexSolA, cexSolB] rfl (by decide) rfl rfl).1

/-! Properties of the chunk loop ranges. -/

theorem pyRange_eq_nil {start stop step : ℕ} (h : stop ≤ start) :
    pyRange start stop step = [] := by
  unfold pyRange
  split_ifs with hs
  · have h0 : stop - start = 0 := by omega
    rw [h0]
    have hd : (0 + step - 1) / step = 0 := Nat.div_eq_of_lt (by omega)
    rw [hd]
    rfl
  · rfl

theorem pyRange_cons {start stop step : ℕ} (hstep : 0 < step) (h : start < stop) :
    pyRange start stop step = start :: pyRange (start + step) stop step := by
  unfold pyRange
  rw [if_pos hstep, if_pos hstep]
  have key : (stop - start + step - 1) / step = (stop - (start + step) + step - 1) / step + 1 := by
    have h1 : stop - start + step - 1 = (stop - start - 1) + step := by omega
    rw [h1, Nat.add_div_right _ hstep]
    have h2 : stop - start - 1 = stop - (start + step) + step - 1 ∨
        (stop - start - 1 < step ∧ stop - (start + step) + step - 1 < step) := by omega
    rcases h2 with he | ⟨ha, hb⟩
    · rw [he]
    · rw [Nat.div_eq_of_lt ha, Nat.div_eq_of_lt hb]
  rw [key, List.range_succ_eq_map, List.map_cons]
  congr 1
  · simp
  · rw [List.map_map]
    apply List.map_congr_left
    intro j hj
    show start + (j + 1) * step = start + step + j * step
    ring

theorem pyRange_mem {stop step : ℕ} :
    ∀ (k start x : ℕ), stop - start = k → x ∈ pyRange start stop step →
      x < stop ∧ x % step = start % step := by
  intro k
  induction k using Nat.strong_induction_on with
  | _ k ih =>
    intro start x hk hx
    by_cases hstep : 0 < step
    · by_cases hlt : start < stop
      · rw [pyRange_cons hstep hlt] at hx
        rcases List.mem_cons.mp hx with rfl | hx2
        · exact ⟨hlt, rfl⟩
        · have hrec := ih (stop - (start + step)) (by omega) (start + step) x rfl hx2
          refine ⟨hrec.1, ?_⟩
          rw [hrec.2, Nat.add_mod_right]
      · rw [pyRange_eq_nil (by omega)] at hx
        cases hx
    · unfold pyRange at hx
      rw [if_neg hstep] at hx
      cases hx

theorem pyRange_ne_nil {stop step : ℕ} (hstep : 0 < step) (hstop : 0 < stop) :
    pyRange 0 stop step ≠ [] := by
  rw [pyRange_cons hstep hstop]
  simp

theorem chunk_cover_aux (C : ℕ) (hC : 0 < C) (cleaned : List String) :
    ∀ (k s : ℕ), cleaned.length - s = k →
      ((pyRange s cleaned.length C).map
        (fun cs => (List.range (chunkAt cleaned cs C).length).map (fun j => cs + j))).flatten =
        List.range' s (cleaned.length - s) := by
  intro k
  induction k using Nat.strong_induction_on with
  | _ k ih =>
    intro s hk
    by_cases hs : s < cleaned.length
    · rw [pyRange_cons hC hs, List.map_cons, List.flatten_cons]
      have hlen : (chunkAt cleaned s C).length = min (s + C) cleaned.length - s := by
        simp only [chunkAt, List.length_take, List.length_drop]
        omega
      rw [hlen]
      rw [ih (cleaned.length - (s + C)) (by omega) (s + C) rfl]
      rw [← List.range'_eq_map_range]
      rcases le_or_lt (s + C) cleaned.length with hle | hgt
      · have ha : min (s + C) cleaned.length - s = C := by omega
        rw [ha]
        have happ := List.range'_append s C (cleaned.length - (s + C)) 1
        rw [Nat.one_mul] at happ
        rw [happ]
        congr 1
        omega
      · have ha : min (s + C) cleaned.length - s = cleaned.length - s := by omega
        have hb : cleaned.length - (s + C) = 0 := by omega
        rw [ha, hb]
        simp
    · rw [pyRange_eq_nil (by omega)]
      have h0 : cleaned.length - s = 0 := by omega
      rw [h0]
      rfl

/-- C8: for every candidate list and positive chunk size, the global
indices chunk_start + local_index reachable over the chunk loop, before
confidence filtering, are exactly 0 .. N-1 in order, each exactly once. -/
theorem chunk_partition_exact :
    ∀ (cleaned : List String) (C : ℕ), 0 < C →
      coveredIndices cleaned C = List.range cleaned.length := by
  intro cleaned C hC
  unfold coveredIndices
  rw [chunk_cover_aux C hC cleaned (cleaned.length - 0) 0 rfl]
  rw [Nat.sub_zero, List.range_eq_range']

/-- Witness for C8 at five candidates and chunk size two. -/
theorem chunk_partition_exact_witness :
    coveredIndices ["a", "b", "c", "d", "e"] 2 = List.range 5 :=
  chunk_partition_exact ["a", "b", "c", "d", "e"] 2 (by norm_num)

/-! The LLM-unavailable fallback path. -/

theorem create_fallback (cs : ℕ) (docs : List Doc) (h : cs < docs.length) :
    ∃ e, create_solution_entry 0 (PyFloat.finite (mkRat 8 10)) fallbackReason cs docs
        = some e ∧
      e.confidence = PyFloat.finite (mkRat 8 10) ∧ e.reason = fallbackReason ∧
      e.global_index = cs := by
  unfold create_solution_entry
  rw [if_neg (by decide)]
  have h2 : cs + 0 < docs.length := by omega
  rw [dif_pos h2]
  exact ⟨_, rfl, rfl, rfl, Nat.add_zero cs⟩

theorem parseLine_fallback (cs : ℕ) (docs : List Doc) (b : PB) :
    parseLine cs docs fallbackLine b =
      match create_solution_entry 0 (PyFloat.finite (mkRat 8 10)) fallbackReason cs docs with
      | some e =>
        .ok (some e, ⟨some 0, some (PyFloat.finite (mkRat 8 10)), some fallbackReason⟩)
      | none =>
        .ok (none, ⟨some 0, some (PyFloat.finite (mkRat 8 10)), some fallbackReason⟩) := rfl

theorem parse_fallback (chunk : List String) (cs : ℕ) (docs : List Doc)
    (h : cs < docs.length) :
    ∃ e, parse_llm_response fallbackLine chunk cs docs = .ok [e] ∧
      e.confidence = PyFloat.finite (mkRat 8 10) ∧ e.reason = fallbackReason ∧
      e.global_index = cs := by
  obtain ⟨e, he, hc, hr, hg⟩ := create_fallback cs docs h
  refine ⟨e, ?_, hc, hr, hg⟩
  have h0 : parse_llm_response fallbackLine chunk cs docs =
      parseLines cs docs [fallbackLine] ⟨none, none, none⟩ [] := by
    unfold parse_llm_response
    rw [if_neg (by decide)]
    rw [(by decide :
      (pySplitChar '\n' fallbackLine.data).map (fun l => (⟨l⟩ : String)) = [fallbackLine])]
  rw [h0]
  simp only [parseLines, parseLine_fallback, he]
  simp

theorem scoreChunks_allfail (llm : String → Except String String)
    (hfail : ∀ p, ∃ err, llm p = .error err) (cleaned : List String) (issue : String)
    (docs : List Doc) :
    ∀ starts : List ℕ, (∀ cs ∈ starts, cs < docs.length ∧ cs % 10 = 0) →
      ∃ sols, scoreChunks llm cleaned issue docs 10 starts = .ok sols ∧
        sols.length = starts.length ∧
        ∀ s ∈ sols, s.confidence = PyFloat.finite (mkRat 8 10) ∧ s.reason = fallbackReason ∧
          s.global_index % 10 = 0 := by
  intro starts
  induction starts with
  | nil => exact fun _ => ⟨[], rfl, rfl, by simp⟩
  | cons cs rest ih =>
    intro hall
    obtain ⟨hlt, hmod⟩ := hall cs (List.mem_cons_self _ _)
    obtain ⟨e, hp, hce, hre, hge⟩ := parse_fallback (chunkAt cleaned cs 10) cs docs hlt
    obtain ⟨sols, hsc, hlen, hprops⟩ := ih (fun x hx => hall x (List.mem_cons_of_mem _ hx))
    obtain ⟨err, herr⟩ := hfail (promptFor issue (chunkAt cleaned cs 10))
    refine ⟨e :: sols, ?_, by simp [hlen], ?_⟩
    · simp only [scoreChunks, herr, hp, hsc]
      simp
    · intro s hs
      rcases List.mem_cons.mp hs with rfl | hmem
      · exact ⟨hce, hre, by rw [hge]; exact hmod⟩
      · exact hprops s hmem

/-- C4: when the LLM transport raises on every invocation, the scorer on
a non-empty candidate list still returns a non-empty result; every
resulting solution is scored from the deterministic fallback line, with
confidence 0.8, local index 0 of its chunk, and a reason text carrying
the fallback marker. -/
theorem fallback_scoring_nonempty :
    ∀ (llm : String → Except String String), (∀ p, ∃ err, llm p = .error err) →
    ∀ (cleaned : List String) (issue : String) (docs : List Doc),
      docs ≠ [] → cleaned.length = docs.length →
      ((query_llm_model llm cleaned issue docs 10).toOption.getD []) ≠ [] ∧
      ∀ s ∈ (query_llm_model llm cleaned issue docs 10).toOption.getD [],
        s.confidence = PyFloat.finite (mkRat 8 10) ∧ s.reason = fallbackReason ∧
        fallbackMarker.data.isPrefixOf s.reason.data = true ∧ s.global_index % 10 = 0 := by
  intro llm hfail cleaned issue docs hne hlen
  have hcl : 0 < cleaned.length := by
    rw [hlen]
    exact List.length_pos.mpr hne
  have hall : ∀ cs ∈ pyRange 0 cleaned.length 10, cs < docs.length ∧ cs % 10 = 0 := by
    intro cs hcs
    have hm := pyRange_mem (cleaned.length - 0) 0 cs rfl hcs
    exact ⟨hlen ▸ hm.1, by simpa using hm.2⟩
  obtain ⟨sols, hsc, hslen, hprops⟩ := scoreChunks_allfail llm hfail cleaned issue docs _ hall
  have hq : query_llm_model llm cleaned issue docs 10 = .ok (pySortDesc sols) := by
    unfold query_llm_model
    rw [if_neg (by simp [hne]), hsc]
    rfl
  rw [hq]
  simp only [Except.toOption, Option.getD]
  constructor
  · have hsnil : sols ≠ [] := by
      intro h0
      rw [h0] at hslen
      exact pyRange_ne_nil (by norm_num) hcl
        (List.length_eq_zero.mp hslen.symm)
    intro h0
    apply hsnil
    have hlps := length_pySortDesc sols
    rw [h0] at hlps
    exact List.length_eq_zero.mp hlps.symm
  · intro s hs
    have hmem : s ∈ sols := (mem_pySortDesc s sols).mp hs
    obtain ⟨h1, h2, h3⟩ := hprops s hmem
    exact ⟨h1, h2, by rw [h2]; decide, h3⟩

/-- Witness for C4 with an always-failing transport on one candidate. -/
theorem fallback_scoring_nonempty_witness :
    ((query_llm_model (fun _ => Except.error "down") ["c0"] "q" [demoDoc] 10).toOption.getD [])
      ≠ [] :=
  (fallback_scoring_nonempty (fun _ => Except.error "down") (fun _ => ⟨"down", rfl⟩)
    ["c0"] "q" [demoDoc] (by simp) rfl).1

/-! Idempotence of the text normalizer. -/

theorem replaceNewlines_no_nl : ∀ l : List Char, '\n' ∉ replaceNewlines l := by
  intro l
  induction l with
  | nil => simp [replaceNewlines]
  | cons a t ih =>
    by_cases ha : a = '\n'
    · subst ha
      simp only [replaceNewlines, if_pos rfl]
      intro h
      rcases List.mem_cons.mp h with h1 | h2
      · cases h1
      · rcases List.mem_cons.mp h2 with h3 | h4
        · cases h3
        · exact ih h4
    · simp only [replaceNewlines, if_neg ha]
      intro h
      rcases List.mem_cons.mp h with h1 | h2
      · exact ha h1.symm
      · exact ih h2

theorem replaceNewlines_eq_self : ∀ l : List Char, '\n' ∉ l → replaceNewlines l = l := by
  intro l
  induction l with
  | nil => intro h; rfl
  | cons a t ih =>
    intro h
    have ha : ¬a = '\n' := fun he => h (he ▸ List.mem_cons_self a t)
    simp only [replaceNewlines, if_neg ha]
    rw [ih (fun hm => h (List.mem_cons_of_mem a hm))]

theorem afterMark_some_length {l l2 : List Char} (h : afterMark l = some l2) :
    l2.length < l.length := by
  unfold afterMark at h
  split at h
  · split_ifs at h
    cases h
    rename_i d rest heq _
    have hle : (List.dropWhile Char.isDigit l).length ≤ l.length :=
      (List.dropWhile_sublist Char.isDigit).length_le
    rw [heq] at hle
    simp at hle ⊢
    omega
  · cases h

theorem afterMark_mem {l l2 : List Char} (h : afterMark l = some l2) :
    ∀ c ∈ l2, c ∈ l := by
  unfold afterMark at h
  split at h
  · split_ifs at h
    cases h
    rename_i d rest heq _
    intro c hc
    exact (List.dropWhile_sublist Char.isDigit).subset (heq ▸ List.mem_cons_of_mem '.' hc)
  · cases h

theorem afterMark_none {l : List Char} (h : '.' ∉ l) : afterMark l = none := by
  unfold afterMark
  split
  · rename_i d rest heq
    exact absurd ((List.dropWhile_sublist Char.isDigit).subset
      (heq ▸ List.mem_cons_self '.' (d :: rest))) h
  · rfl

theorem mem_stripNM {c : Char} :
    ∀ (n : ℕ) (b : Bool) (l : List Char), l.length ≤ n → c ∈ stripNM b l → c ∈ l := by
  intro n
  induction n with
  | zero =>
    intro b l hl hc
    have h0 : l = [] := List.eq_nil_of_length_eq_zero (by omega)
    subst h0
    simp [stripNM] at hc
  | succ n ih =>
    intro b l hl hc
    match l with
    | [] => simp [stripNM] at hc
    | a :: t =>
      rw [stripNM] at hc
      split at hc
      · split at hc
        · rename_i l2 hAM
          have hlt := afterMark_some_length hAM
          have hc2 := ih true l2 (by simp at hl hlt ⊢; omega) hc
          exact afterMark_mem hAM c hc2
        · rcases List.mem_cons.mp hc with rfl | hc2
          · exact List.mem_cons_self _ _
          · exact List.mem_cons_of_mem _ (ih _ t (by simp at hl ⊢; omega) hc2)
      · rcases List.mem_cons.mp hc with rfl | hc2
        · exact List.mem_cons_self _ _
        · exact List.mem_cons_of_mem _ (ih _ t (by simp at hl ⊢; omega) hc2)

theorem stripNM_eq_self :
    ∀ (n : ℕ) (b : Bool) (l : List Char), l.length ≤ n → '.' ∉ l → stripNM b l = l := by
  intro n
  induction n with
  | zero =>
    intro b l hl hdot
    have h0 : l = [] := List.eq_nil_of_length_eq_zero (by omega)
    subst h0
    simp [stripNM]
  | succ n ih =>
    intro b l hl hdot
    match l with
    | [] => simp [stripNM]
    | a :: t =>
      have hAM : afterMark (a :: t) = none := afterMark_none hdot
      have htl : '.' ∉ t := fun hm => hdot (List.mem_cons_of_mem a hm)
      rw [stripNM]
      split
      · split
        · rename_i l2 hsome
          rw [hAM] at hsome
          cases hsome
        · rw [ih (!isWordChar a) t (by simp at hl ⊢; omega) htl]
      · rw [ih (!isWordChar a) t (by simp at hl ⊢; omega) htl]

/-- C7: the text normalizer is idempotent: applying clean_text twice
gives the same result as applying it once. -/
theorem clean_text_idempotent : ∀ s : String, clean_text (clean_text s) = clean_text s := by
  intro s
  show (⟨keepWordSpace (stripNM true (replaceNewlines (removeAsterisks
      (clean_text s).data)))⟩ : String) = clean_text s
  have hdata : (clean_text s).data =
      keepWordSpace (stripNM true (replaceNewlines (removeAsterisks s.data))) := rfl
  rw [hdata]
  set y := keepWordSpace (stripNM true (replaceNewlines (removeAsterisks s.data))) with hy
  have hkeep : ∀ c ∈ y, (isWordChar c || isSpaceChar c) = true := by
    intro c hc
    have hc2 : c ∈ List.filter (fun d => isWordChar d || isSpaceChar d)
        (stripNM true (replaceNewlines (removeAsterisks s.data))) := hc
    exact (List.mem_filter.mp hc2).2
  have hmemy : ∀ c ∈ y, c ∈ replaceNewlines (removeAsterisks s.data) := by
    intro c hc
    have hc2 : c ∈ List.filter (fun d => isWordChar d || isSpaceChar d)
        (stripNM true (replaceNewlines (removeAsterisks s.data))) := hc
    have h1 : c ∈ stripNM true (replaceNewlines (removeAsterisks s.data)) :=
      (List.mem_filter.mp hc2).1
    exact mem_stripNM _ true _ le_rfl h1
  have hnl : '\n' ∉ y := fun h => replaceNewlines_no_nl _ (hmemy _ h)
  have hdot : '.' ∉ y := fun h => absurd (hkeep '.' h) (by decide)
  have hstar : '*' ∉ y := fun h => absurd (hkeep '*' h) (by decide)
  have s1 : removeAsterisks y = y := by
    apply List.filter_eq_self.mpr
    intro c hc
    rcases eq_or_ne c '*' with rfl | hne
    · exact absurd hc hstar
    · simpa using hne
  have s2 : replaceNewlines y = y := replaceNewlines_eq_self y hnl
  have s3 : stripNM true y = y := stripNM_eq_self y.length true y le_rfl hdot
  have s4 : keepWordSpace y = y := List.filter_eq_self.mpr hkeep
  rw [s1, s2, s3, s4]
  exact String.ext hdata.symm

end DevOpsBot
